import Mathlib

/-!
Shallow embedding of `src/midi2json.js` (Adhesion/midi2json).

The script parses an in-memory MIDI byte buffer.  Numbers produced by
`bufferToNumber` can be JavaScript `NaN` (when `parseInt` is applied to the
hex string of an empty `Buffer`); we model such numbers as `Option Nat`
with `none` playing the role of `NaN`.  The JavaScript coercions used by
the script are modelled explicitly:

* `x & m` applies `ToInt32`, with `ToInt32(NaN) = 0` (`jand`);
* `x < c` and `x == c` are `false` whenever `x` is `NaN` (`jlt`, `jeq`);
* truthiness of a number is "not 0 and not NaN" (`jtruthy`).

Rational numbers stand in for JavaScript's binary floating point: the
tempo / time computations are modelled in exact arithmetic (with the Lean
convention `q / 0 = 0`, where IEEE arithmetic would produce an infinity).
-/

/-- JavaScript `x & m` for `x : Option Nat` (`none` = `NaN`): `ToInt32(NaN) = 0`. -/
def jand (x : Option Nat) (m : Nat) : Nat := x.getD 0 &&& m

/-- JavaScript `x < c` for `x : Option Nat`: comparisons with `NaN` are `false`. -/
def jlt (x : Option Nat) (c : Nat) : Bool :=
  match x with
  | some v => v < c
  | none => false

/-- JavaScript truthiness of a number: `0` and `NaN` are falsy. -/
def jtruthy (x : Option Nat) : Bool := x.getD 0 ≠ 0

/-- `bufferToNumber` (midi2json.js:23-26): hex string of a byte buffer parsed as a
big-endian integer; an empty buffer yields `parseInt("", 16) = NaN` (`none`). -/
def bufferToNumber (buf : List Nat) : Option Nat :=
  match buf with
  | [] => none
  | _ => some (buf.foldl (fun a b => a * 256 + b) 0)

/-- `readBytes` (midi2json.js:31-35): `bytes.slice(byteIndex, byteIndex + n)` and
`byteIndex += n`.  `Buffer.slice` clamps, so a short (possibly empty) list is
returned near the end of the buffer, while the position advances by `n`
unconditionally.  Returns the slice and the new position. -/
def readBytes (bytes : List Nat) (pos n : Nat) : List Nat × Nat :=
  ((bytes.drop pos).take n, pos + n)

/-- Loop of `readVariableLength` (midi2json.js:54-60):
`while ((byte & 0x80) && byteCount < 3)`.  Arguments mirror the JS locals;
the final argument is the fuel `3 - byteCount`, which makes the bounded loop
structurally recursive (the guard `byteCount < 3` is exactly `fuel > 0`).
Returns `(retVal, byteCount, pos)` after the post-loop code
(midi2json.js:62-65).  All intermediate values stay below `2 ^ 28`, far from
JavaScript's 32-bit shift range, so plain `Nat` arithmetic is faithful. -/
def rvlLoop (bytes : List Nat) (pos : Nat) (byte : Option Nat)
    (retVal byteCount : Nat) : Nat → Nat × Nat × Nat
  | 0 => ((retVal <<< 7) ||| jand byte 0x7F, byteCount + 1, pos)
  | fuel + 1 =>
    if jand byte 0x80 ≠ 0 then
      let retVal' := (retVal <<< 7) ||| jand byte 0x7F
      let (buf, pos') := readBytes bytes pos 1
      rvlLoop bytes pos' (bufferToNumber buf) retVal' (byteCount + 1) fuel
    else
      ((retVal <<< 7) ||| jand byte 0x7F, byteCount + 1, pos)

/-- `readVariableLength` (midi2json.js:44-68).  Returns
`(value, byteCount, newPosition)`; the source returns `[value, byteCount]`
and advances the global `byteIndex`, which we carry explicitly. -/
def readVariableLength (bytes : List Nat) (pos : Nat) : Nat × Nat × Nat :=
  let (buf, pos₁) := readBytes bytes pos 1
  rvlLoop bytes pos₁ (bufferToNumber buf) 0 0 3

/-- The canonical MIDI variable-length encoding of a value below `2 ^ 28`
(1–4 bytes, 7 bits per byte, continuation bit on every byte but the last,
minimal length).  This is the spec-side encoder the round-trip claim
compares the decoder against. -/
def encodeVarLen (v : Nat) : List Nat :=
  if v < 0x80 then [v]
  else if v < 0x4000 then
    [0x80 ||| (v >>> 7), v &&& 0x7F]
  else if v < 0x200000 then
    [0x80 ||| (v >>> 14), 0x80 ||| ((v >>> 7) &&& 0x7F), v &&& 0x7F]
  else
    [0x80 ||| (v >>> 21), 0x80 ||| ((v >>> 14) &&& 0x7F),
     0x80 ||| ((v >>> 7) &&& 0x7F), v &&& 0x7F]

example : readVariableLength [0x00] 0 = (0, 1, 1) := by decide
example : readVariableLength [0x81, 0x00] 0 = (128, 2, 2) := by decide
example : readVariableLength [0xFF, 0xFF, 0xFF, 0x7F] 0 = (0x0FFFFFFF, 4, 4) := by decide
example : encodeVarLen 128 = [0x81, 0x00] := by decide

/-- The tagged payload of one decoded event record (the `"type"`-tagged JSON
objects built in `readEvent` / `readMetaEvent`).  Data bytes obtained from
`bufferToNumber` can be `NaN` near the end of the buffer, hence `Option Nat`;
the pitchwheel value is computed with bitwise operators and is therefore
always an actual number. -/
inductive EvData where
  | noteOff (note velocity : Option Nat)
  | noteOn (note velocity : Option Nat)
  | polyAftertouch (note pressure : Option Nat)
  | controlChange (cc value : Option Nat)
  | programChange (program : Option Nat)
  | aftertouch (pressure : Option Nat)
  | pitchwheel (value : Nat)
  | trackEnd
deriving DecidableEq, Repr

/-- One event record: payload, tick time (`"time"`), and the `"timeMS"`
field added by the annotation pass at the end of the script (`none` while
the field is absent, and also for a `NaN` milliseconds value). -/
structure MidiEvent where
  data : EvData
  time : Nat
  timeMS : Option ℚ
deriving DecidableEq, Repr

/-- The module-level mutable variables of midi2json.js that the track parser
reads or writes (`byteIndex`, `runningStatus`, `tempo`, `tempTrackName`,
midi2json.js:7-18).  `runningStatus` is `none` for JS `null` (and for the
unreachable-in-practice `NaN` status, which is equally falsy);
`tempo` is `none` for a `NaN` tempo.  `outputDict` is write-only during
parsing and is threaded separately as a list of emitted writes. -/
structure PCore where
  byteIndex : Nat
  runningStatus : Option Nat
  tempo : Option ℚ
  tempTrackName : String
deriving DecidableEq, Repr

/-- `readEvent` (midi2json.js:117-209).  Takes the current state, the
track's event list, the accumulated delta time and the dispatched status
byte; returns the new state, the new event list and `bytesRead`. -/
def readEvent (bytes : List Nat) (c : PCore) (trackData : List MidiEvent)
    (totalDeltaTime : Nat) (headerByte : Option Nat) :
    PCore × List MidiEvent × Nat :=
  -- midi2json.js:123-134: a data byte with no running status is dropped.
  if jlt headerByte 0x80 && !jtruthy c.runningStatus then
    (c, trackData, 0)
  else
    let useRS := jlt headerByte 0x80
    let status := if useRS then c.runningStatus else headerByte
    -- midi2json.js:139-142: read the first data byte unless running status
    -- already supplied it.
    let (firstDataByte, pos₁, bytesRead₁) :=
      if useRS then (headerByte, c.byteIndex, 0)
      else (bufferToNumber (readBytes bytes c.byteIndex 1).1, c.byteIndex + 1, 1)
    let headerMasked := jand status 0xF0
    if headerMasked = 0x80 then
      let velocity := bufferToNumber (readBytes bytes pos₁ 1).1
      ({ c with byteIndex := pos₁ + 1, runningStatus := status },
       trackData ++ [⟨.noteOff firstDataByte velocity, totalDeltaTime, none⟩],
       bytesRead₁ + 1)
    else if headerMasked = 0x90 then
      let velocity := bufferToNumber (readBytes bytes pos₁ 1).1
      ({ c with byteIndex := pos₁ + 1, runningStatus := status },
       trackData ++ [⟨.noteOn firstDataByte velocity, totalDeltaTime, none⟩],
       bytesRead₁ + 1)
    else if headerMasked = 0xA0 then
      let pressure := bufferToNumber (readBytes bytes pos₁ 1).1
      ({ c with byteIndex := pos₁ + 1, runningStatus := status },
       trackData ++ [⟨.polyAftertouch firstDataByte pressure, totalDeltaTime, none⟩],
       bytesRead₁ + 1)
    else if headerMasked = 0xB0 then
      let value := bufferToNumber (readBytes bytes pos₁ 1).1
      ({ c with byteIndex := pos₁ + 1, runningStatus := status },
       trackData ++ [⟨.controlChange firstDataByte value, totalDeltaTime, none⟩],
       bytesRead₁ + 1)
    else if headerMasked = 0xC0 then
      ({ c with byteIndex := pos₁, runningStatus := status },
       trackData ++ [⟨.programChange firstDataByte, totalDeltaTime, none⟩],
       bytesRead₁)
    else if headerMasked = 0xD0 then
      ({ c with byteIndex := pos₁, runningStatus := status },
       trackData ++ [⟨.aftertouch firstDataByte, totalDeltaTime, none⟩],
       bytesRead₁)
    else if headerMasked = 0xE0 then
      -- midi2json.js:194-204: pitchwheelValue = (msb << 7) | lsb, with the
      -- JS bitwise coercion ToInt32(NaN) = 0 on both operands.
      let msb := bufferToNumber (readBytes bytes pos₁ 1).1
      let pitchwheelValue := (msb.getD 0 <<< 7) ||| firstDataByte.getD 0
      ({ c with byteIndex := pos₁ + 1, runningStatus := status },
       trackData ++ [⟨.pitchwheel pitchwheelValue, totalDeltaTime, none⟩],
       bytesRead₁ + 1)
    else
      -- No high-nibble case matches (possible only for a NaN status, whose
      -- ToInt32 is 0): nothing is pushed, but runningStatus is still set.
      ({ c with byteIndex := pos₁, runningStatus := status },
       trackData, bytesRead₁)

/-- ASCII conversion of a payload, as in `metaData.toString("ascii")`:
Node's `ascii` decoding masks each byte with `0x7F`. -/
def asciiOf (l : List Nat) : String :=
  String.mk (l.map fun b => Char.ofNat (b &&& 0x7F))

/-- `readMetaEvent` (midi2json.js:211-254). -/
def readMetaEvent (bytes : List Nat) (c : PCore) (trackData : List MidiEvent)
    (totalDeltaTime : Nat) : PCore × List MidiEvent × Nat :=
  -- midi2json.js:214: meta events clear running status.
  let c := { c with runningStatus := none }
  let metaHeader := bufferToNumber (readBytes bytes c.byteIndex 1).1
  let (metaLength, mlCount, pos₂) := readVariableLength bytes (c.byteIndex + 1)
  let bytesRead := 1 + mlCount
  if metaLength > 0 then
    let (metaData, pos₃) := readBytes bytes pos₂ metaLength
    let metaValue := bufferToNumber metaData
    let bytesRead := bytesRead + metaLength
    if metaHeader = some 0x03 then
      -- Track name is stored only when `metaValue` is truthy (midi2json.js:230).
      let name := if jtruthy metaValue then asciiOf metaData else c.tempTrackName
      ({ c with byteIndex := pos₃, tempTrackName := name }, trackData, bytesRead)
    else if metaHeader = some 0x51 then
      ({ c with byteIndex := pos₃, tempo := metaValue.map (Nat.cast) },
       trackData, bytesRead)
    else
      -- 0x58 (time signature) and all other meta types: payload ignored.
      ({ c with byteIndex := pos₃ }, trackData, bytesRead)
  else
    if metaHeader = some 0x2F then
      ({ c with byteIndex := pos₂ },
       trackData ++ [⟨.trackEnd, totalDeltaTime, none⟩], bytesRead)
    else
      ({ c with byteIndex := pos₂ }, trackData, bytesRead)

/-- `readSysex` (midi2json.js:256-273). -/
def readSysex (bytes : List Nat) (c : PCore) (trackData : List MidiEvent)
    (headerByte : Option Nat) : PCore × List MidiEvent × Nat :=
  let c := if jlt headerByte 0xF8 then { c with runningStatus := none } else c
  let (len, lenCount, pos₂) := readVariableLength bytes c.byteIndex
  let (_, pos₃) := readBytes bytes pos₂ len
  ({ c with byteIndex := pos₃ }, trackData, len + lenCount)

/-- The local state of the `while (trackLength > 0)` loop of `readTrack`
(midi2json.js:88-109).  `trackLength` is an `Int`: the remaining-length
counter is decremented by the bytes consumed and can go negative. -/
structure TrackLoopState where
  core : PCore
  trackLength : Int
  totalDeltaTime : Nat
  trackData : List MidiEvent
deriving DecidableEq, Repr

/-- One iteration of the `readTrack` loop body (midi2json.js:88-108):
delta time, one status byte, dispatch on its value, length accounting. -/
def trackStep (bytes : List Nat) (L : TrackLoopState) : TrackLoopState :=
  let (dtVal, dtCount, pos₁) := readVariableLength bytes L.core.byteIndex
  let totalDeltaTime := L.totalDeltaTime + dtVal
  let headerByte := bufferToNumber (readBytes bytes pos₁ 1).1
  let c₁ := { L.core with byteIndex := pos₁ + 1 }
  let bytesRead := dtCount + 1
  let (c₂, trackData₂, n) :=
    if headerByte = some 0xFF then
      readMetaEvent bytes c₁ L.trackData totalDeltaTime
    else if jand headerByte 0xF0 = 0xF0 then
      readSysex bytes c₁ L.trackData headerByte
    else
      readEvent bytes c₁ L.trackData totalDeltaTime headerByte
  { core := c₂
    trackLength := L.trackLength - (bytesRead + n : Nat)
    totalDeltaTime := totalDeltaTime
    trackData := trackData₂ }

/-- The guarded loop step: run the body only while `trackLength > 0`. -/
def guardedStep (bytes : List Nat) (L : TrackLoopState) : TrackLoopState :=
  if L.trackLength > 0 then trackStep bytes L else L

/-- The `while (trackLength > 0)` loop of `readTrack`, modelled as
`trackLength.toNat` applications of the guarded step.  Every iteration of
the source loop consumes at least two bytes (delta time plus the status
byte), so the loop performs at most `trackLength` iterations; the
termination theorem below shows this budget suffices (the final state has
`trackLength ≤ 0`, where `guardedStep` is the identity). -/
def runTrackLoop (bytes : List Nat) (L : TrackLoopState) : TrackLoopState :=
  (guardedStep bytes)^[L.trackLength.toNat] L

/-- The byte values of the `"MTrk"` chunk tag. -/
def trackChunkBytes : List Nat := [0x4D, 0x54, 0x72, 0x6B]

/-- `readTrack` (midi2json.js:75-115).  Returns the new parser state and the
track's write into `outputDict` (`none` when the `"MTrk"` magic is missing
and the track is skipped, midi2json.js:77-80). -/
def readTrack (bytes : List Nat) (iTrack : Nat) (c : PCore) :
    PCore × Option (String × List MidiEvent) :=
  let (track, pos₁) := readBytes bytes c.byteIndex 4
  if track ≠ trackChunkBytes then
    ({ c with byteIndex := pos₁ }, none)
  else
    let (lenBuf, pos₂) := readBytes bytes pos₁ 4
    -- A NaN track length (empty slice at EOF) fails `trackLength > 0`
    -- exactly like 0, so it is modelled as 0.
    let trackLength : Int := ((bufferToNumber lenBuf).getD 0 : Nat)
    let trackNameDefault := "Track " ++ toString iTrack
    let L := runTrackLoop bytes
      ⟨{ c with byteIndex := pos₂, tempTrackName := "" }, trackLength, 0, []⟩
    -- midi2json.js:111-114: default name when no name meta was stored.
    let finalName :=
      if L.core.tempTrackName = "" then trackNameDefault else L.core.tempTrackName
    ({ L.core with tempTrackName := finalName }, some (finalName, L.trackData))

/-- The track loop of the main script (midi2json.js:322-324): parse `n`
tracks starting at index `iTrack`, collecting the `outputDict` writes in
order. -/
def parseTracksAux (bytes : List Nat) (c : PCore) (iTrack : Nat) :
    Nat → PCore × List (String × List MidiEvent)
  | 0 => (c, [])
  | n + 1 =>
    let (c', w) := readTrack bytes iTrack c
    let (c'', ws) := parseTracksAux bytes c' (iTrack + 1) n
    (c'', match w with | some p => p :: ws | none => ws)

/-- JavaScript object property assignment `d[k] = v` on a string-keyed
object, modelled as an ordered association list: an existing key keeps its
position and gets the new value, a new key is appended. -/
def assign (k : String) (v : α) : List (String × α) → List (String × α)
  | [] => [(k, v)]
  | (k', v') :: rest =>
    if k' = k then (k, v) :: rest else (k', v') :: assign k v rest

/-- Apply a list of `outputDict` writes in order. -/
def applyWrites (ws : List (String × α)) (d : List (String × α)) :
    List (String × α) :=
  ws.foldl (fun d p => assign p.1 p.2 d) d

/-- Property lookup on the modelled object. -/
def dictGet (k : String) : List (String × α) → Option α
  | [] => none
  | (k', v) :: rest => if k' = k then some v else dictGet k rest

/-- The time-annotation of one event (midi2json.js:339-344):
`event["timeMS"] = time * msPerTick`.  The guard `time !== null` is always
true (every event record carries a numeric `time`).  A `NaN` `msPerTick`
(modelled `none`) makes the stored value `NaN`. -/
def setTimeMS (msPerTick : Option ℚ) (ev : MidiEvent) : MidiEvent :=
  { ev with timeMS := msPerTick.map fun m => (ev.time : ℚ) * m }

/-- The annotation pass over every event of every track
(midi2json.js:335-346). -/
def annotateDict (msPerTick : Option ℚ)
    (d : List (String × List MidiEvent)) : List (String × List MidiEvent) :=
  d.map fun kv => (kv.1, kv.2.map (setTimeMS msPerTick))

/-- The byte values of the `"MThd"` chunk tag. -/
def headerChunkBytes : List Nat := [0x4D, 0x54, 0x68, 0x64]

/-- The header section of the main script (midi2json.js:288-320): magic
check, header length, `ceil(headerLength / 2)` two-byte fields, SMPTE
check.  Returns `none` on fatal termination: wrong magic
(midi2json.js:293-296), SMPTE division (midi2json.js:317-320), or a crash
dereferencing a missing `headerVals` entry (a NaN header length runs the
field loop zero times; fewer than three fields leave `headerVals[2]`
undefined and `bufferToNumber` throws).  Otherwise returns
`(position after the header, numTracks, division)`; `numTracks` is the JS
number coerced through the `iTrack < numTracks` loop bound (`NaN` runs the
loop zero times, hence `getD 0`), `division` keeps its possible `NaN`. -/
def midiHeader (bytes : List Nat) : Option (Nat × Nat × Option Nat) :=
  let (header, pos₁) := readBytes bytes 0 4
  if header ≠ headerChunkBytes then none
  else
    match bufferToNumber (readBytes bytes pos₁ 4).1 with
    | none => none
    | some headerLength =>
      let cnt := (headerLength + 1) / 2
      if cnt < 3 then none
      else
        let numTracks := bufferToNumber (readBytes bytes (pos₁ + 4 + 2) 2).1
        let division := bufferToNumber (readBytes bytes (pos₁ + 4 + 4) 2).1
        if jand division 0x8000 ≠ 0 then none
        else some (pos₁ + 4 + 2 * cnt, numTracks.getD 0, division)

/-- `msPerTick = (tempo / division) / 1000.0` (midi2json.js:329-332),
after the override (`if (overrideTempo > 0.0) tempo = overrideTempo`).
`none` models a `NaN` result (NaN tempo or NaN division).  A zero division
would give an IEEE infinity where the rational model gives `0`; no claim
depends on that corner. -/
def msPerTickOf (overrideTempo : ℚ) (tempo : Option ℚ) (division : Option Nat) :
    Option ℚ :=
  match (if overrideTempo > 0 then some overrideTempo else tempo), division with
  | some t, some dv => some (t / (dv : ℚ) / 1000)
  | _, _ => none

/-- The whole script run (midi2json.js:286-348) on a byte buffer, starting
from given values of the non-per-run globals `tempTrackName` and
`outputDict`; `byteIndex`, `runningStatus` and `tempo` start at their
initial values (0, `null`, 500000).  `overrideTempo` is the global set from
the optional BPM argument (0 when absent).  Returns the final `outputDict`
(the JSON output), or `none` when the script terminates on a fatal error. -/
def runMidiFrom (bytes : List Nat) (overrideTempo : ℚ) (initName : String)
    (d₀ : List (String × List MidiEvent)) :
    Option (List (String × List MidiEvent)) :=
  match midiHeader bytes with
  | none => none
  | some (pos, numTracks, division) =>
    let c₀ : PCore := ⟨pos, none, some 500000, initName⟩
    let (c₁, ws) := parseTracksAux bytes c₀ 0 numTracks
    let m := msPerTickOf overrideTempo c₁.tempo division
    some (annotateDict m (applyWrites ws d₀))

/-- One fresh run of the script: all globals at their initial values
(midi2json.js:5-18). -/
def runMidi (bytes : List Nat) (overrideTempo : ℚ) :
    Option (List (String × List MidiEvent)) :=
  runMidiFrom bytes overrideTempo "" []

/-! ## Helper lemmas -/

theorem jlt_some_iff {x : Option Nat} {c : Nat} :
    jlt x c = true ↔ ∃ b, x = some b ∧ b < c := by
  cases x <;> simp [jlt]

theorem rvlLoop_count_ge (bytes : List Nat) :
    ∀ (fuel pos : Nat) (byte : Option Nat) (retVal byteCount : Nat),
      byteCount + 1 ≤ (rvlLoop bytes pos byte retVal byteCount fuel).2.1
  | 0, _, _, _, _ => le_refl _
  | fuel + 1, pos, byte, retVal, byteCount => by
    unfold rvlLoop
    split
    · exact le_trans (Nat.le_succ _)
        (rvlLoop_count_ge bytes fuel _ _ _ (byteCount + 1))
    · exact le_refl _

theorem readVariableLength_count_pos (bytes : List Nat) (pos : Nat) :
    1 ≤ (readVariableLength bytes pos).2.1 := by
  unfold readVariableLength
  exact rvlLoop_count_ge bytes 3 _ _ 0 0

/-! ## Bitwise arithmetic helpers for the variable-length quantity proofs -/

theorem and127_eq_mod (x : Nat) : x &&& 127 = x % 128 := by
  have h := Nat.and_pow_two_sub_one_eq_mod x 7
  norm_num at h
  exact h

theorem or128_eq_add {q : Nat} (h : q < 128) : 128 ||| q = 128 + q := by
  have e : (2:Nat) ^ 7 = 128 := by norm_num
  have h2 := Nat.mul_add_lt_is_or (a := 1) (i := 7) (e.symm ▸ h)
  rw [e, Nat.mul_one] at h2
  exact h2.symm

theorem shl7_or_eq {q r : Nat} (h : r < 128) : (q <<< 7) ||| r = q * 128 + r := by
  have e : (2:Nat) ^ 7 = 128 := by norm_num
  have h2 := Nat.mul_add_lt_is_or (a := q) (i := 7) (e.symm ▸ h)
  rw [e, Nat.mul_comm 128 q] at h2
  rw [Nat.shiftLeft_eq]
  norm_num
  exact h2.symm

theorem and128_eq_zero {x : Nat} (h : x < 128) : x &&& 128 = 0 := by
  have e : (2:Nat) ^ 7 = 128 := by norm_num
  have h2 := Nat.and_two_pow x 7
  rw [e] at h2
  rw [h2]
  have hb : x.testBit 7 = false := by
    rw [Nat.testBit_to_div_mod]
    simp only [decide_eq_false_iff_not]
    norm_num
    omega
  simp [hb]

theorem and128_ne_zero {x : Nat} (h1 : 128 ≤ x) (h2 : x < 256) : x &&& 128 ≠ 0 := by
  have e : (2:Nat) ^ 7 = 128 := by norm_num
  have ha := Nat.and_two_pow x 7
  rw [e] at ha
  rw [ha]
  have hb : x.testBit 7 = true := by
    rw [Nat.testBit_to_div_mod]
    simp only [decide_eq_true_eq]
    norm_num
    omega
  simp [hb]

theorem rvl_decode1 (b0 : Nat) (rest : List Nat) (h0 : b0 &&& 128 = 0) :
    readVariableLength (b0 :: rest) 0 = (b0 &&& 127, 1, 1) := by
  simp [readVariableLength, readBytes, bufferToNumber, rvlLoop, jand, h0]

theorem rvl_decode2 (b0 b1 : Nat) (rest : List Nat)
    (h0 : b0 &&& 128 ≠ 0) (h1 : b1 &&& 128 = 0) :
    readVariableLength (b0 :: b1 :: rest) 0 =
      (((b0 &&& 127) <<< 7) ||| (b1 &&& 127), 2, 2) := by
  simp [readVariableLength, readBytes, bufferToNumber, rvlLoop, jand, h0, h1]

theorem rvl_decode3 (b0 b1 b2 : Nat) (rest : List Nat)
    (h0 : b0 &&& 128 ≠ 0) (h1 : b1 &&& 128 ≠ 0) (h2 : b2 &&& 128 = 0) :
    readVariableLength (b0 :: b1 :: b2 :: rest) 0 =
      ((((b0 &&& 127) <<< 7) ||| (b1 &&& 127)) <<< 7 ||| (b2 &&& 127), 3, 3) := by
  simp [readVariableLength, readBytes, bufferToNumber, rvlLoop, jand, h0, h1, h2]

theorem rvl_decode4 (b0 b1 b2 b3 : Nat) (rest : List Nat)
    (h0 : b0 &&& 128 ≠ 0) (h1 : b1 &&& 128 ≠ 0) (h2 : b2 &&& 128 ≠ 0) :
    readVariableLength (b0 :: b1 :: b2 :: b3 :: rest) 0 =
      (((((b0 &&& 127) <<< 7) ||| (b1 &&& 127)) <<< 7 ||| (b2 &&& 127)) <<< 7
         ||| (b3 &&& 127), 4, 4) := by
  simp [readVariableLength, readBytes, bufferToNumber, rvlLoop, jand, h0, h1, h2]


theorem vlq_roundtrip_eq (v : Nat) (hv : v < 2 ^ 28) (rest : List Nat) :
    readVariableLength (encodeVarLen v ++ rest) 0 =
      (v, (encodeVarLen v).length, (encodeVarLen v).length) := by
  have e7 : v >>> 7 = v / 128 := by rw [Nat.shiftRight_eq_div_pow]
  have e14 : v >>> 14 = v / 16384 := by rw [Nat.shiftRight_eq_div_pow]
  have e21 : v >>> 21 = v / 2097152 := by rw [Nat.shiftRight_eq_div_pow]
  by_cases h1 : v < 0x80
  · simp only [encodeVarLen, if_pos h1, List.cons_append, List.nil_append,
      List.length_cons, List.length_nil]
    rw [rvl_decode1 v rest (and128_eq_zero h1), and127_eq_mod]
    have : v % 128 = v := Nat.mod_eq_of_lt h1
    simp [this]
  · by_cases h2 : v < 0x4000
    · simp only [encodeVarLen, if_neg h1, if_pos h2, List.cons_append,
        List.nil_append, List.length_cons, List.length_nil]
      have hq : v / 128 < 128 := by omega
      rw [show (0x80 ||| (v >>> 7)) = 128 + v / 128 by rw [e7]; exact or128_eq_add hq,
        and127_eq_mod,
        rvl_decode2 _ _ rest (and128_ne_zero (by omega) (by omega))
          (and128_eq_zero (by omega))]
      rw [and127_eq_mod, and127_eq_mod, Nat.add_mod_left,
        Nat.mod_eq_of_lt hq, Nat.mod_eq_of_lt (Nat.mod_lt v (by norm_num)),
        shl7_or_eq (Nat.mod_lt v (by norm_num))]
      simp only [Prod.mk.injEq, and_true]
      omega
    · by_cases h3 : v < 0x200000
      · simp only [encodeVarLen, if_neg h1, if_neg h2, if_pos h3, List.cons_append,
          List.nil_append, List.length_cons, List.length_nil]
        have hq2 : v / 16384 < 128 := by omega
        have hq1 : v / 128 % 128 < 128 := Nat.mod_lt _ (by norm_num)
        have hr : v % 128 < 128 := Nat.mod_lt v (by norm_num)
        rw [show (0x80 ||| (v >>> 14)) = 128 + v / 16384 by
            rw [e14]; exact or128_eq_add hq2,
          show (0x80 ||| ((v >>> 7) &&& 0x7F)) = 128 + v / 128 % 128 by
            rw [e7, and127_eq_mod]; exact or128_eq_add hq1,
          and127_eq_mod,
          rvl_decode3 _ _ _ rest (and128_ne_zero (by omega) (by omega))
            (and128_ne_zero (by omega) (by omega)) (and128_eq_zero (by omega))]
        rw [and127_eq_mod, and127_eq_mod, and127_eq_mod,
          Nat.add_mod_left, Nat.add_mod_left,
          Nat.mod_eq_of_lt hq2, Nat.mod_eq_of_lt (Nat.mod_lt _ (by norm_num)),
          Nat.mod_eq_of_lt (Nat.mod_lt v (by norm_num)),
          shl7_or_eq hq1, shl7_or_eq hr]
        simp only [Prod.mk.injEq, and_true]
        omega
      · simp only [encodeVarLen, if_neg h1, if_neg h2, if_neg h3, List.cons_append,
          List.nil_append, List.length_cons, List.length_nil]
        have hq3 : v / 2097152 < 128 := by omega
        have hq2 : v / 16384 % 128 < 128 := Nat.mod_lt _ (by norm_num)
        have hq1 : v / 128 % 128 < 128 := Nat.mod_lt _ (by norm_num)
        have hr : v % 128 < 128 := Nat.mod_lt v (by norm_num)
        rw [show (0x80 ||| (v >>> 21)) = 128 + v / 2097152 by
            rw [e21]; exact or128_eq_add hq3,
          show (0x80 ||| ((v >>> 14) &&& 0x7F)) = 128 + v / 16384 % 128 by
            rw [e14, and127_eq_mod]; exact or128_eq_add hq2,
          show (0x80 ||| ((v >>> 7) &&& 0x7F)) = 128 + v / 128 % 128 by
            rw [e7, and127_eq_mod]; exact or128_eq_add hq1,
          and127_eq_mod,
          rvl_decode4 _ _ _ _ rest (and128_ne_zero (by omega) (by omega))
            (and128_ne_zero (by omega) (by omega))
            (and128_ne_zero (by omega) (by omega))]
        rw [and127_eq_mod, and127_eq_mod, and127_eq_mod, and127_eq_mod,
          Nat.add_mod_left, Nat.add_mod_left, Nat.add_mod_left,
          Nat.mod_eq_of_lt hq3, Nat.mod_eq_of_lt (Nat.mod_lt _ (by norm_num)),
          Nat.mod_eq_of_lt (Nat.mod_lt _ (by norm_num)),
          Nat.mod_eq_of_lt (Nat.mod_lt v (by norm_num)),
          shl7_or_eq hq2, shl7_or_eq hq1, shl7_or_eq hr]
        simp only [Prod.mk.injEq, and_true]
        omega

theorem encodeVarLen_length_bounds (v : Nat) :
    1 ≤ (encodeVarLen v).length ∧ (encodeVarLen v).length ≤ 4 := by
  unfold encodeVarLen
  split_ifs <;> simp

/-! ## Claim theorems -/

/-- **C2.** For every value with a canonical MIDI variable-length encoding of
1 to 4 bytes (exactly the values below `2 ^ 28`), decoding that byte sequence
with `readVariableLength` — in any buffer that starts with the encoding —
returns the original value together with a byte count equal to the length of
the encoding (round-trip law), and the encoding length lies between 1 and 4. -/
theorem vlq_decode_encode_roundtrip (v : Nat) (hv : v < 2 ^ 28) (rest : List Nat) :
    readVariableLength (encodeVarLen v ++ rest) 0 =
      (v, (encodeVarLen v).length, (encodeVarLen v).length) ∧
    1 ≤ (encodeVarLen v).length ∧ (encodeVarLen v).length ≤ 4 :=
  ⟨vlq_roundtrip_eq v hv rest, encodeVarLen_length_bounds v⟩

/-- Witness for C2 at the concrete value 123456 (a 3-byte encoding). -/
theorem vlq_decode_encode_roundtrip_witness :
    (123456 : Nat) < 2 ^ 28 ∧
    (readVariableLength (encodeVarLen 123456 ++ [0x90]) 0 =
        (123456, (encodeVarLen 123456).length, (encodeVarLen 123456).length) ∧
      1 ≤ (encodeVarLen 123456).length ∧ (encodeVarLen 123456).length ≤ 4) :=
  ⟨by decide, vlq_decode_encode_roundtrip 123456 (by decide) [0x90]⟩

/-- **C3 counterexample.** The claim states that a read of `n` bytes with
fewer than `n` remaining fails with an end-of-input condition and that the
buffer position never exceeds the buffer length.  In the code, `readBytes 1`
on an empty buffer returns an empty slice (no failure of any kind) and
advances the position to 1, which exceeds the buffer length 0. -/
theorem readBytes_no_eof_failure_counterexample :
    (readBytes [] 0 1).1 = [] ∧ (readBytes [] 0 1).2 = 1 ∧
    ¬ (readBytes [] 0 1).2 ≤ List.length ([] : List Nat) := by
  decide

/-- **C3 (amended).** `readBytes` never fails: it returns the
`min n (length - pos)` bytes that remain (a short or empty slice when fewer
than `n` bytes are left) and advances the position by `n` unconditionally,
so the position can exceed the buffer length. -/
theorem readBytes_clamps_and_always_advances (bytes : List Nat) (pos n : Nat) :
    (readBytes bytes pos n).1.length = min n (bytes.length - pos) ∧
    (readBytes bytes pos n).2 = pos + n := by
  refine ⟨?_, rfl⟩
  simp [readBytes]

/-- A 37-byte two-track file: track 0 ends with a noteOn (status `0x90`)
and has no end-of-track meta event; track 1 consists of a delta time
followed by the bare data bytes `0x3E 0x00` and contains no status byte
with its high bit set at all. -/
def c1File : List Nat :=
  [0x4D, 0x54, 0x68, 0x64, 0, 0, 0, 6, 0, 0, 0, 2, 0, 1,
   0x4D, 0x54, 0x72, 0x6B, 0, 0, 0, 4, 0x00, 0x90, 0x3C, 0x40,
   0x4D, 0x54, 0x72, 0x6B, 0, 0, 0, 3, 0x00, 0x3E, 0x00]

set_option maxHeartbeats 2000000 in
/-- **C1 counterexample.** The claim says RunningStatus is reset to empty at
the start of each track, so a channel-voice status established in one track
is never used as running status in a later track.  On `c1File` the state
after parsing track 0 still carries `runningStatus = 0x90` into track 1,
and track 1 — which contains no status byte of its own — nevertheless
produces a decoded `noteOn {note: 0x3E, velocity: 0}` under that carried
status. -/
theorem runningStatus_crossing_tracks_counterexample :
    midiHeader c1File = some (14, 2, some 1) ∧
    (parseTracksAux c1File ⟨14, none, some 500000, ""⟩ 0 1).1.runningStatus
      = some 0x90 ∧
    runMidi c1File 0 =
      some [("Track 0", [⟨.noteOn (some 0x3C) (some 0x40), 0, some 0⟩]),
            ("Track 1", [⟨.noteOn (some 0x3E) (some 0), 0, some 0⟩])] := by
  with_unfolding_all decide


set_option maxHeartbeats 3200000 in
/-- **C1 (amended).** RunningStatus is not reset at the start of each track:
`readTrack` enters its event loop with the caller's running status intact
(a track whose declared length is 0 returns it unchanged), and it is set to
the effective status byte after every successfully decoded channel-voice
event — directly or via running status — so a channel-voice status
established in one track is used as running status for a high-bit-clear
byte in a later track when no intervening meta or sysex event cleared it. -/
theorem runningStatus_persists_across_tracks :
    (∀ (bytes : List Nat) (c : PCore) (td : List MidiEvent) (tdt b : Nat),
      0x80 ≤ b →
      (readEvent bytes c td tdt (some b)).1.runningStatus = some b) ∧
    (∀ (bytes : List Nat) (c : PCore) (td : List MidiEvent) (tdt b : Nat),
      b < 0x80 → jtruthy c.runningStatus = true →
      (readEvent bytes c td tdt (some b)).1.runningStatus = c.runningStatus) ∧
    (∀ (bytes : List Nat) (iTrack : Nat) (c : PCore),
      (readBytes bytes c.byteIndex 4).1 = trackChunkBytes →
      (bufferToNumber (readBytes bytes (c.byteIndex + 4) 4).1).getD 0 = 0 →
      (readTrack bytes iTrack c).1.runningStatus = c.runningStatus) := by
  refine ⟨?_, ?_, ?_⟩
  · intro bytes c td tdt b hb
    have h1 : jlt (some b) 0x80 = false := by
      simp [jlt]
      omega
    unfold readEvent
    rw [h1]
    rw [if_neg (by simp)]
    dsimp only
    split_ifs <;> first | rfl | exact (False.elim (by simp_all))
  · intro bytes c td tdt b hb ht
    have h1 : jlt (some b) 0x80 = true := by
      simp [jlt, hb]
    unfold readEvent
    rw [h1, ht]
    rw [if_neg (by simp)]
    dsimp only
    split_ifs <;> first | rfl | exact (False.elim (by simp_all))
  · intro bytes iTrack c hmagic hlen
    unfold readTrack
    simp only [readBytes] at hmagic hlen ⊢
    rw [hmagic, if_neg (by simp), hlen]
    simp [runTrackLoop]

/-- Witness for the amended C1 theorem: a direct noteOn sets running status
to `0x90`; a data byte decoded under running status keeps it; a zero-length
track chunk leaves a carried `0x90` untouched. -/
theorem runningStatus_persists_across_tracks_witness :
    ((0x80 : Nat) ≤ 0x90 ∧
      (readEvent [0x3C, 0x40] ⟨0, none, some 500000, ""⟩ [] 0
          (some 0x90)).1.runningStatus = some 0x90) ∧
    ((0x3E : Nat) < 0x80 ∧
      jtruthy (PCore.mk 0 (some 0x90) (some 500000) "").runningStatus = true ∧
      (readEvent [0x00] ⟨0, some 0x90, some 500000, ""⟩ [] 0
          (some 0x3E)).1.runningStatus
        = (PCore.mk 0 (some 0x90) (some 500000) "").runningStatus) ∧
    ((readBytes [0x4D, 0x54, 0x72, 0x6B, 0, 0, 0, 0]
        (PCore.mk 0 (some 0x90) (some 500000) "").byteIndex 4).1 = trackChunkBytes ∧
      (bufferToNumber (readBytes [0x4D, 0x54, 0x72, 0x6B, 0, 0, 0, 0]
          ((PCore.mk 0 (some 0x90) (some 500000) "").byteIndex + 4) 4).1).getD 0 = 0 ∧
      (readTrack [0x4D, 0x54, 0x72, 0x6B, 0, 0, 0, 0] 0
          ⟨0, some 0x90, some 500000, ""⟩).1.runningStatus
        = (PCore.mk 0 (some 0x90) (some 500000) "").runningStatus) :=
  ⟨⟨by decide, runningStatus_persists_across_tracks.1 _ _ _ _ _ (by decide)⟩,
   ⟨by decide, by decide,
     runningStatus_persists_across_tracks.2.1 _ _ _ _ _ (by decide) (by decide)⟩,
   ⟨by decide, by decide,
     runningStatus_persists_across_tracks.2.2 _ _ _ (by decide) (by decide)⟩⟩

/-- midi2json.js:123-134: a high-bit-clear byte with no (truthy) running
status logs an error and returns 0 without touching any state. -/
theorem readEvent_drop (bytes : List Nat) (c : PCore) (td : List MidiEvent)
    (tdt : Nat) (hb : Option Nat)
    (h1 : jlt hb 0x80 = true) (h2 : jtruthy c.runningStatus = false) :
    readEvent bytes c td tdt hb = (c, td, 0) := by
  unfold readEvent
  rw [h1, h2]
  simp

/-- Every iteration of the track loop consumes at least 2 bytes (at least
one delta-time byte plus the status byte), on every path including the
dropped-event path. -/
theorem trackStep_trackLength_le (bytes : List Nat) (L : TrackLoopState) :
    (trackStep bytes L).trackLength ≤ L.trackLength - 2 := by
  have hc := readVariableLength_count_pos bytes L.core.byteIndex
  unfold trackStep
  rcases hrv : readVariableLength bytes L.core.byteIndex with ⟨dtVal, dtCount, pos₁⟩
  rw [hrv] at hc
  simp only at hc
  rcases hdisp : (if bufferToNumber (readBytes bytes pos₁ 1).1 = some 0xFF then
      readMetaEvent bytes { L.core with byteIndex := pos₁ + 1 } L.trackData
        (L.totalDeltaTime + dtVal)
    else if jand (bufferToNumber (readBytes bytes pos₁ 1).1) 0xF0 = 0xF0 then
      readSysex bytes { L.core with byteIndex := pos₁ + 1 } L.trackData
        (bufferToNumber (readBytes bytes pos₁ 1).1)
    else
      readEvent bytes { L.core with byteIndex := pos₁ + 1 } L.trackData
        (L.totalDeltaTime + dtVal) (bufferToNumber (readBytes bytes pos₁ 1).1))
    with ⟨c₂, td₂, n⟩
  simp only [hdisp]
  omega

/-- After `trackLength.toNat` guarded steps the remaining-length counter is
no longer positive: the `while (trackLength > 0)` loop terminates within its
byte budget on every finite input. -/
theorem guardedStep_reaches_zero (bytes : List Nat) :
    ∀ (n : Nat) (L : TrackLoopState), L.trackLength.toNat ≤ n →
      ((guardedStep bytes)^[n] L).trackLength ≤ 0
  | 0, L, h => by
    simpa using (by omega : L.trackLength ≤ 0)
  | n + 1, L, h => by
    rw [Function.iterate_succ_apply]
    by_cases hp : L.trackLength > 0
    · have hd := trackStep_trackLength_le bytes L
      have hstep : guardedStep bytes L = trackStep bytes L := by
        simp [guardedStep, hp]
      rw [hstep]
      exact guardedStep_reaches_zero bytes n (trackStep bytes L) (by omega)
    · have hstep : guardedStep bytes L = L := by
        simp [guardedStep, hp]
      rw [hstep]
      exact guardedStep_reaches_zero bytes n L (by omega)

/-- **C4.** On a track-parse iteration whose dispatched status byte has its
high bit clear while no running status is established: no event is appended
to the track's event list, the channel-event decoder `readEvent` reports 0
consumed bytes for the dispatch step, and the remaining-length counter is
still decremented by at least 1 (in fact by the delta-time bytes plus the
already-read status byte), so the track-parse loop makes forward progress;
moreover the loop terminates on every finite input (after `trackLength`
guarded steps the counter is never still positive). -/
theorem channel_drop_path_makes_progress :
    (∀ (bytes : List Nat) (L : TrackLoopState),
      jlt (bufferToNumber (readBytes bytes
          (readVariableLength bytes L.core.byteIndex).2.2 1).1) 0x80 = true →
      jtruthy L.core.runningStatus = false →
      (trackStep bytes L).trackData = L.trackData ∧
      (readEvent bytes
          { L.core with byteIndex := (readVariableLength bytes L.core.byteIndex).2.2 + 1 }
          L.trackData
          (L.totalDeltaTime + (readVariableLength bytes L.core.byteIndex).1)
          (bufferToNumber (readBytes bytes
            (readVariableLength bytes L.core.byteIndex).2.2 1).1)).2.2 = 0 ∧
      (trackStep bytes L).trackLength ≤ L.trackLength - 1) ∧
    (∀ (bytes : List Nat) (L : TrackLoopState),
      (runTrackLoop bytes L).trackLength ≤ 0) := by
  refine ⟨?_, ?_⟩
  swap
  · intro bytes L
    exact guardedStep_reaches_zero bytes L.trackLength.toNat L (le_refl _)
  intro bytes L h1 h2
  obtain ⟨b, hbeq, hblt⟩ := jlt_some_iff.mp h1
  have hc := readVariableLength_count_pos bytes L.core.byteIndex
  have hdrop := readEvent_drop bytes
    { L.core with byteIndex := (readVariableLength bytes L.core.byteIndex).2.2 + 1 }
    L.trackData (L.totalDeltaTime + (readVariableLength bytes L.core.byteIndex).1)
    _ h1 h2
  refine ⟨?_, ?_, ?_⟩
  · unfold trackStep
    rcases hrv : readVariableLength bytes L.core.byteIndex with ⟨dtVal, dtCount, pos₁⟩
    rw [hrv] at hbeq hdrop
    simp only at hbeq hdrop ⊢
    rw [hbeq]
    rw [if_neg (by simp; omega), if_neg (by
      simp only [jand, Option.getD_some]
      have : b &&& 0xF0 ≤ b := Nat.and_le_left
      omega)]
    rw [hbeq] at hdrop
    rw [hdrop]
  · rw [hdrop]
  · unfold trackStep
    rcases hrv : readVariableLength bytes L.core.byteIndex with ⟨dtVal, dtCount, pos₁⟩
    rw [hrv] at hbeq hdrop hc
    simp only at hbeq hdrop hc ⊢
    rw [hbeq]
    rw [if_neg (by simp; omega), if_neg (by
      simp only [jand, Option.getD_some]
      have : b &&& 0xF0 ≤ b := Nat.and_le_left
      omega)]
    rw [hbeq] at hdrop
    rw [hdrop]
    simp only
    omega

/-- Witness for C4: the track state at position 0 of the buffer
`[0x00, 0x3C]` (delta time 0, then the bare data byte 0x3C) with no running
status, remaining length 2. -/
theorem channel_drop_path_makes_progress_witness :
    (jlt (bufferToNumber (readBytes [0x00, 0x3C]
        (readVariableLength [0x00, 0x3C]
          (TrackLoopState.mk ⟨0, none, some 500000, ""⟩ 2 0 []).core.byteIndex).2.2 1).1)
        0x80 = true) ∧
    (jtruthy (TrackLoopState.mk ⟨0, none, some 500000, ""⟩ 2 0 []).core.runningStatus
        = false) ∧
    ((trackStep [0x00, 0x3C] (TrackLoopState.mk ⟨0, none, some 500000, ""⟩ 2 0 [])).trackData
        = (TrackLoopState.mk ⟨0, none, some 500000, ""⟩ 2 0 []).trackData ∧
      (readEvent [0x00, 0x3C]
          { (TrackLoopState.mk ⟨0, none, some 500000, ""⟩ 2 0 []).core with
              byteIndex := (readVariableLength [0x00, 0x3C]
                (TrackLoopState.mk ⟨0, none, some 500000, ""⟩ 2 0 []).core.byteIndex).2.2 + 1 }
          (TrackLoopState.mk ⟨0, none, some 500000, ""⟩ 2 0 []).trackData
          ((TrackLoopState.mk ⟨0, none, some 500000, ""⟩ 2 0 []).totalDeltaTime +
            (readVariableLength [0x00, 0x3C]
              (TrackLoopState.mk ⟨0, none, some 500000, ""⟩ 2 0 []).core.byteIndex).1)
          (bufferToNumber (readBytes [0x00, 0x3C]
            (readVariableLength [0x00, 0x3C]
              (TrackLoopState.mk ⟨0, none, some 500000, ""⟩ 2 0 []).core.byteIndex).2.2 1).1)).2.2
        = 0 ∧
      (trackStep [0x00, 0x3C]
          (TrackLoopState.mk ⟨0, none, some 500000, ""⟩ 2 0 [])).trackLength
        ≤ (TrackLoopState.mk ⟨0, none, some 500000, ""⟩ 2 0 []).trackLength - 1) ∧
    ((runTrackLoop [0x00, 0x3C]
        (TrackLoopState.mk ⟨0, none, some 500000, ""⟩ 2 0 [])).trackLength ≤ 0) :=
  ⟨by decide, by decide,
   channel_drop_path_makes_progress.1 [0x00, 0x3C] _ (by decide) (by decide),
   channel_drop_path_makes_progress.2 [0x00, 0x3C] _⟩

/-- **C7.** Every invocation of the meta-event decoder leaves RunningStatus
cleared (it is set to `null` before anything else and never re-set), and a
`trackEnd` event at the current accumulated tick time is appended if and
only if the meta event's decoded length is 0 and its type byte is `0x2F`;
no other meta event (zero-length or not) appends any event. -/
theorem metaEvent_clears_runningStatus_and_trackEnd_iff (bytes : List Nat) (c : PCore) (td : List MidiEvent) (tdt : Nat) :
    (readMetaEvent bytes c td tdt).1.runningStatus = none ∧
    (readMetaEvent bytes c td tdt).2.1 =
      td ++ (if (readVariableLength bytes (c.byteIndex + 1)).1 = 0 ∧
               bufferToNumber (readBytes bytes c.byteIndex 1).1 = some 0x2F
             then [⟨.trackEnd, tdt, none⟩] else []) := by
  unfold readMetaEvent
  dsimp only
  rcases hrv : readVariableLength bytes (c.byteIndex + 1) with ⟨ml, mlc, pos₂⟩
  dsimp only
  split_ifs <;> simp_all

/-- **C6.** A channel-voice event whose effective status has high nibble
`0xE` (pitchwheel) — whether the status byte is explicit or supplied by
running status — decodes to a pitchwheel event whose 14-bit value is
`(secondDataByte <<< 7) ||| firstDataByte`. -/
theorem pitchwheel_value_14bit :
    (∀ (bytes : List Nat) (c : PCore) (td : List MidiEvent) (tdt b d1 d2 : Nat),
      0xE0 ≤ b → b ≤ 0xEF →
      bufferToNumber (readBytes bytes c.byteIndex 1).1 = some d1 →
      bufferToNumber (readBytes bytes (c.byteIndex + 1) 1).1 = some d2 →
      (readEvent bytes c td tdt (some b)).2.1 =
        td ++ [⟨.pitchwheel ((d2 <<< 7) ||| d1), tdt, none⟩]) ∧
    (∀ (bytes : List Nat) (c : PCore) (td : List MidiEvent) (tdt b s d2 : Nat),
      b < 0x80 → c.runningStatus = some s → 0xE0 ≤ s → s ≤ 0xEF →
      bufferToNumber (readBytes bytes c.byteIndex 1).1 = some d2 →
      (readEvent bytes c td tdt (some b)).2.1 =
        td ++ [⟨.pitchwheel ((d2 <<< 7) ||| b), tdt, none⟩]) := by
  constructor
  · intro bytes c td tdt b d1 d2 hb1 hb2 h3 h4
    have hmask : b &&& 0xF0 = 0xE0 := by interval_cases b <;> decide
    have h1 : jlt (some b) 0x80 = false := by
      simp [jlt]
      omega
    unfold readEvent
    rw [h1, if_neg (by simp)]
    simp only [Bool.false_eq_true, if_false, jand, Option.getD_some, hmask]
    rw [if_neg (by norm_num), if_neg (by norm_num), if_neg (by norm_num),
      if_neg (by norm_num), if_neg (by norm_num), if_neg (by norm_num), if_pos trivial]
    rw [h3, h4]
    simp
  · intro bytes c td tdt b s d2 hblt hrs hs1 hs2 h5
    have hmask : s &&& 0xF0 = 0xE0 := by interval_cases s <;> decide
    have h1 : jlt (some b) 0x80 = true := by simp [jlt, hblt]
    have ht : jtruthy c.runningStatus = true := by
      simp [jtruthy, hrs]
      omega
    unfold readEvent
    rw [h1, ht, if_neg (by simp)]
    simp only [if_true, hrs, Option.getD_some, jand, hmask]
    rw [h5]
    simp

/-- Witness for C6: the spec's example bytes `0xE0 0x00 0x40` decode to a
pitchwheel event with value `(0x40 << 7) | 0x00 = 8192` (center). -/
theorem pitchwheel_value_14bit_witness :
    (0xE0 : Nat) ≤ 0xE0 ∧ (0xE0 : Nat) ≤ 0xEF ∧
    bufferToNumber (readBytes [0x00, 0x40]
        (PCore.mk 0 none (some 500000) "").byteIndex 1).1 = some 0 ∧
    bufferToNumber (readBytes [0x00, 0x40]
        ((PCore.mk 0 none (some 500000) "").byteIndex + 1) 1).1 = some 0x40 ∧
    (readEvent [0x00, 0x40] ⟨0, none, some 500000, ""⟩ [] 0 (some 0xE0)).2.1 =
      [] ++ [⟨.pitchwheel ((0x40 <<< 7) ||| 0), 0, none⟩] ∧
    ((0x40 <<< 7) ||| 0 : Nat) = 8192 :=
  ⟨by decide, by decide, by decide, by decide,
   pitchwheel_value_14bit.1 [0x00, 0x40] ⟨0, none, some 500000, ""⟩ [] 0 0xE0 0 0x40
     (by decide) (by decide) (by decide) (by decide),
   by decide⟩

/-! ## Dictionary lemmas -/

/-- The value of the last write to key `k` in a write list, if any. -/
def lastVal (k : String) : List (String × α) → Option α
  | [] => none
  | (k₀, v) :: rest =>
    match lastVal k rest with
    | some w => some w
    | none => if k₀ = k then some v else none

theorem dictGet_assign (q k : String) (v : α) (d : List (String × α)) :
    dictGet q (assign k v d) = if k = q then some v else dictGet q d := by
  induction d with
  | nil => simp [assign, dictGet]
  | cons p rest ih =>
    obtain ⟨k₀, v₀⟩ := p
    by_cases h : k₀ = k
    · subst h
      simp only [assign, if_pos rfl, dictGet]
      by_cases hq : k₀ = q <;> simp [hq]
    · simp only [assign, if_neg h, dictGet]
      by_cases hq : k₀ = q
      · subst hq
        rw [if_pos rfl, if_neg (by intro hkq; exact h hkq.symm)]
        simp [dictGet]
      · rw [if_neg hq, ih, if_neg hq]

theorem dictGet_applyWrites (k : String) (ws : List (String × α)) :
    ∀ (d : List (String × α)),
      dictGet k (applyWrites ws d) =
        match lastVal k ws with
        | some w => some w
        | none => dictGet k d := by
  induction ws with
  | nil => intro d; simp [applyWrites, lastVal]
  | cons p rest ih =>
    intro d
    obtain ⟨k₀, v₀⟩ := p
    have happ : applyWrites ((k₀, v₀) :: rest) d = applyWrites rest (assign k₀ v₀ d) := rfl
    rw [happ, ih]
    simp only [lastVal]
    cases h : lastVal k rest with
    | some w => simp
    | none =>
      simp only [dictGet_assign]
      by_cases hk : k₀ = k <;> simp [hk]

theorem lastVal_eq_none_iff (k : String) (ws : List (String × α)) :
    lastVal k ws = none ↔ k ∉ ws.map Prod.fst := by
  induction ws with
  | nil => simp [lastVal]
  | cons p rest ih =>
    obtain ⟨k₀, v₀⟩ := p
    simp only [lastVal, List.map_cons, List.mem_cons]
    cases h : lastVal k rest with
    | some w =>
      constructor
      · intro hc
        exact (Option.some_ne_none w hc).elim
      · intro hc
        exfalso
        have hn : lastVal k rest = none := ih.mpr (by tauto)
        rw [hn] at h
        cases h
    | none =>
      have hk : k ∉ List.map Prod.fst rest := ih.mp h
      by_cases hq : k₀ = k <;> simp [hq, hk]
      exact fun hqq => hq hqq.symm

/-- The key list produced by a sequence of JS property assignments:
existing keys keep their position, new keys are appended. -/
def addKeys : List String → List String → List String
  | ks, [] => ks
  | ks, k :: l => addKeys (if k ∈ ks then ks else ks ++ [k]) l

theorem assign_keys (k : String) (v : α) (d : List (String × α)) :
    (assign k v d).map Prod.fst =
      if k ∈ d.map Prod.fst then d.map Prod.fst else d.map Prod.fst ++ [k] := by
  induction d with
  | nil => simp [assign]
  | cons p rest ih =>
    obtain ⟨k₀, v₀⟩ := p
    by_cases h : k₀ = k
    · subst h
      simp [assign]
    · simp only [assign, if_neg h, List.map_cons, ih, List.mem_cons]
      by_cases hm : k ∈ rest.map Prod.fst
      · simp [hm, h, fun hc : k = k₀ => h hc.symm]
      · simp only [hm, if_false]
        rw [if_neg (by tauto)]
        simp

theorem applyWrites_keys (ws : List (String × α)) :
    ∀ d : List (String × α),
      (applyWrites ws d).map Prod.fst = addKeys (d.map Prod.fst) (ws.map Prod.fst) := by
  induction ws with
  | nil => intro d; simp [applyWrites, addKeys]
  | cons p rest ih =>
    intro d
    obtain ⟨k₀, v₀⟩ := p
    have happ : applyWrites ((k₀, v₀) :: rest) d = applyWrites rest (assign k₀ v₀ d) := rfl
    rw [happ, ih, assign_keys]
    simp [addKeys]

theorem mem_addKeys_left {k : String} : ∀ (l ks : List String), k ∈ ks → k ∈ addKeys ks l
  | [], ks, h => h
  | k₀ :: l, ks, h => by
    simp only [addKeys]
    apply mem_addKeys_left l
    split_ifs with hm
    · exact h
    · exact List.mem_append_left _ h

theorem mem_addKeys_right {k : String} : ∀ (l ks : List String), k ∈ l → k ∈ addKeys ks l
  | k₀ :: l, ks, h => by
    simp only [addKeys]
    rcases List.mem_cons.mp h with h | h
    · subst h
      apply mem_addKeys_left
      split_ifs with hm
      · exact hm
      · simp
    · exact mem_addKeys_right l _ h

theorem addKeys_eq_of_subset : ∀ (l ks : List String), (∀ k ∈ l, k ∈ ks) → addKeys ks l = ks
  | [], ks, _ => rfl
  | k₀ :: l, ks, h => by
    simp only [addKeys, if_pos (h k₀ (by simp))]
    exact addKeys_eq_of_subset l ks (fun k hk => h k (by simp [hk]))

theorem addKeys_idem (ks l : List String) : addKeys (addKeys ks l) l = addKeys ks l :=
  addKeys_eq_of_subset l _ (fun k hk => mem_addKeys_right l ks hk)

theorem addKeys_nodup : ∀ (l ks : List String), ks.Nodup → (addKeys ks l).Nodup
  | [], ks, h => h
  | k₀ :: l, ks, h => by
    simp only [addKeys]
    apply addKeys_nodup l
    split_ifs with hm
    · exact h
    · simp [List.nodup_append, h, hm]

theorem dictGet_eq_none_of_not_mem {k : String} :
    ∀ {d : List (String × α)}, k ∉ d.map Prod.fst → dictGet k d = none
  | [], _ => rfl
  | (k₀, v₀) :: rest, h => by
    have h1 : ¬ k₀ = k := by
      intro hc
      exact h (by simp [hc])
    simp only [dictGet, if_neg h1]
    exact dictGet_eq_none_of_not_mem (by
      intro hc
      exact h (by simp [hc]))

theorem dict_ext :
    ∀ (d₁ d₂ : List (String × α)), d₁.map Prod.fst = d₂.map Prod.fst →
      (d₁.map Prod.fst).Nodup → (∀ k, dictGet k d₁ = dictGet k d₂) → d₁ = d₂
  | [], [], _, _, _ => rfl
  | [], (k₂, v₂) :: d₂, hk, _, _ => by simp at hk
  | (k₁, v₁) :: d₁, [], hk, _, _ => by simp at hk
  | (k₁, v₁) :: d₁, (k₂, v₂) :: d₂, hk, hnd, hget => by
    simp only [List.map_cons, List.cons.injEq] at hk
    obtain ⟨hk12, htl⟩ := hk
    subst hk12
    have hv : v₁ = v₂ := by
      have := hget k₁
      simp [dictGet] at this
      exact this
    subst hv
    have hnotm : k₁ ∉ d₁.map Prod.fst := by
      simp only [List.map_cons, List.nodup_cons] at hnd
      exact hnd.1
    have hnotm₂ : k₁ ∉ d₂.map Prod.fst := htl ▸ hnotm
    have htail : d₁ = d₂ := by
      apply dict_ext d₁ d₂ htl
      · simp only [List.map_cons, List.nodup_cons] at hnd
        exact hnd.2
      · intro k
        by_cases hkk : k = k₁
        · subst hkk
          rw [dictGet_eq_none_of_not_mem hnotm, dictGet_eq_none_of_not_mem hnotm₂]
        · have := hget k
          simp only [dictGet, if_neg (fun hc : k₁ = k => hkk hc.symm)] at this
          exact this
    rw [htail]

theorem applyWrites_absorb (ws qs d : List (String × α))
    (hkeys : ws.map Prod.fst = qs.map Prod.fst)
    (hnd : (d.map Prod.fst).Nodup) :
    applyWrites ws (applyWrites qs d) = applyWrites ws d := by
  apply dict_ext
  · rw [applyWrites_keys, applyWrites_keys, applyWrites_keys, hkeys, addKeys_idem]
  · rw [applyWrites_keys, applyWrites_keys]
    exact addKeys_nodup _ _ (addKeys_nodup _ _ hnd)
  · intro k
    rw [dictGet_applyWrites, dictGet_applyWrites, dictGet_applyWrites]
    cases h : lastVal k ws with
    | some w => simp
    | none =>
      have h2 : lastVal k qs = none := by
        rw [lastVal_eq_none_iff] at h ⊢
        rw [← hkeys]
        exact h
      simp [h2]

theorem setTimeMS_time (m : Option ℚ) (ev : MidiEvent) :
    (setTimeMS m ev).time = ev.time := rfl

theorem annotateDict_assign (m : Option ℚ) (k : String) (v : List MidiEvent)
    (d : List (String × List MidiEvent)) :
    annotateDict m (assign k v d) =
      assign k (v.map (setTimeMS m)) (annotateDict m d) := by
  induction d with
  | nil => simp [assign, annotateDict]
  | cons p rest ih =>
    obtain ⟨k₀, v₀⟩ := p
    by_cases h : k₀ = k
    · subst h
      simp [assign, annotateDict]
    · simp only [annotateDict] at ih ⊢
      simp only [assign, if_neg h, List.map_cons]
      rw [ih]

theorem annotateDict_applyWrites (m : Option ℚ) (ws : List (String × List MidiEvent)) :
    ∀ d : List (String × List MidiEvent),
      annotateDict m (applyWrites ws d) =
        applyWrites (ws.map fun p => (p.1, p.2.map (setTimeMS m))) (annotateDict m d) := by
  induction ws with
  | nil => intro d; rfl
  | cons p rest ih =>
    intro d
    obtain ⟨k₀, v₀⟩ := p
    have h1 : applyWrites ((k₀, v₀) :: rest) d = applyWrites rest (assign k₀ v₀ d) := rfl
    rw [h1, ih, annotateDict_assign]
    rfl

theorem applyWrites_rerun (m : Option ℚ) (ws : List (String × List MidiEvent)) :
    applyWrites ws (annotateDict m (applyWrites ws [])) = applyWrites ws [] := by
  have h1 : annotateDict m (applyWrites ws []) =
      applyWrites (ws.map fun p => (p.1, p.2.map (setTimeMS m))) [] := by
    rw [annotateDict_applyWrites]
    rfl
  rw [h1]
  apply applyWrites_absorb
  · simp
  · simp

theorem lastVal_last_occurrence (k : String) (v : α) :
    ∀ (xs ys : List (String × α)), (∀ p ∈ ys, p.1 ≠ k) →
      lastVal k (xs ++ (k, v) :: ys) = some v
  | [], ys, h => by
    have hnone : lastVal k ys = none := by
      rw [lastVal_eq_none_iff]
      intro hc
      obtain ⟨p, hp, hpk⟩ := List.mem_map.mp hc
      exact h p hp hpk
    simp [lastVal, hnone]
  | x :: xs, ys, h => by
    obtain ⟨k₀, v₀⟩ := x
    have ih := lastVal_last_occurrence k v xs ys h
    rw [List.cons_append]
    simp only [lastVal, List.append_eq]
    rw [ih]

theorem dictGet_annotateDict (m : Option ℚ) (k : String) :
    ∀ d : List (String × List MidiEvent),
      dictGet k (annotateDict m d) = (dictGet k d).map (List.map (setTimeMS m))
  | [] => rfl
  | (k₀, v₀) :: rest => by
    simp only [annotateDict, List.map_cons, dictGet]
    by_cases h : k₀ = k
    · simp [h]
    · simp only [if_neg h]
      exact dictGet_annotateDict m k rest

/-- **C10.** The output is keyed by track name: when two distinct tracks
resolve to the same name (`ws` splits as an earlier and a later write of the
same `name`, with no later write of that name), the final output mapping —
the annotation pass applied to the accumulated `outputDict` writes — contains
only the later-parsed track's (annotated) event list under that name; the
earlier track's events are silently discarded. -/
theorem later_track_wins (bytes : List Nat) (c0 : PCore) (nT : Nat)
    (ws a b' c' : List (String × List MidiEvent)) (name : String)
    (evEarlier evLater : List MidiEvent)
    (hws : ws = (parseTracksAux bytes c0 0 nT).2)
    (hsplit : ws = a ++ (name, evEarlier) :: b' ++ (name, evLater) :: c')
    (hlast : ∀ p ∈ c', p.1 ≠ name)
    (m : Option ℚ) (d₀ : List (String × List MidiEvent)) :
    dictGet name (annotateDict m (applyWrites ws d₀)) =
      some (evLater.map (setTimeMS m)) := by
  rw [dictGet_annotateDict, dictGet_applyWrites]
  have hlv : lastVal name ws = some evLater := by
    rw [hsplit]
    have : a ++ (name, evEarlier) :: b' ++ (name, evLater) :: c' =
        (a ++ (name, evEarlier) :: b') ++ (name, evLater) :: c' := by
      simp
    rw [this]
    exact lastVal_last_occurrence name evLater _ c' hlast
  rw [hlv]
  rfl

/-- `readTrack` does not read the leftover `tempTrackName` global: it is
reset (good track) or irrelevant (skipped track), so every result component
except the name itself is independent of it. -/
theorem readTrack_name_independent (bytes : List Nat) (iTrack : Nat)
    (b : Nat) (r : Option Nat) (t : Option ℚ) (n₁ n₂ : String) :
    (readTrack bytes iTrack ⟨b, r, t, n₁⟩).1.byteIndex
        = (readTrack bytes iTrack ⟨b, r, t, n₂⟩).1.byteIndex ∧
    (readTrack bytes iTrack ⟨b, r, t, n₁⟩).1.runningStatus
        = (readTrack bytes iTrack ⟨b, r, t, n₂⟩).1.runningStatus ∧
    (readTrack bytes iTrack ⟨b, r, t, n₁⟩).1.tempo
        = (readTrack bytes iTrack ⟨b, r, t, n₂⟩).1.tempo ∧
    (readTrack bytes iTrack ⟨b, r, t, n₁⟩).2
        = (readTrack bytes iTrack ⟨b, r, t, n₂⟩).2 := by
  unfold readTrack
  dsimp only
  split_ifs <;> exact ⟨rfl, rfl, rfl, rfl⟩

/-- The track writes and the final tempo of the whole track loop are
independent of the initial `tempTrackName`. -/
theorem parseTracksAux_name_independent (bytes : List Nat) :
    ∀ (n iTrack : Nat) (b : Nat) (r : Option Nat) (t : Option ℚ) (n₁ n₂ : String),
      (parseTracksAux bytes ⟨b, r, t, n₁⟩ iTrack n).1.tempo
          = (parseTracksAux bytes ⟨b, r, t, n₂⟩ iTrack n).1.tempo ∧
      (parseTracksAux bytes ⟨b, r, t, n₁⟩ iTrack n).2
          = (parseTracksAux bytes ⟨b, r, t, n₂⟩ iTrack n).2
  | 0, iTrack, b, r, t, n₁, n₂ => ⟨rfl, rfl⟩
  | n + 1, iTrack, b, r, t, n₁, n₂ => by
    obtain ⟨hbi, hrs, ht, hw⟩ := readTrack_name_independent bytes iTrack b r t n₁ n₂
    rcases h₁ : readTrack bytes iTrack ⟨b, r, t, n₁⟩ with ⟨c₁, w₁⟩
    rcases h₂ : readTrack bytes iTrack ⟨b, r, t, n₂⟩ with ⟨c₂, w₂⟩
    rw [h₁, h₂] at hbi hrs ht hw
    obtain ⟨bb₁, rr₁, tt₁, nn₁⟩ := c₁
    obtain ⟨bb₂, rr₂, tt₂, nn₂⟩ := c₂
    simp only at hbi hrs ht hw
    subst hbi
    subst hrs
    subst ht
    subst hw
    have ih := parseTracksAux_name_independent bytes n (iTrack + 1) bb₁ rr₁ tt₁ nn₁ nn₂
    simp only [parseTracksAux, h₁, h₂]
    refine ⟨ih.1, ?_⟩
    rw [ih.2]

/-- **C9.** The decoder is deterministic and free of hidden cross-run state:
re-running the full decode on the same byte buffer and override setting,
with `byteIndex`, `RunningStatus` and tempo back at their initial values but
with the `tempTrackName` and `outputDict` globals still dirty from the first
run (`nm` and `out`), produces the identical output mapping. -/
theorem decode_rerun_idempotent (bytes : List Nat) (ov : ℚ) (nm : String)
    (out : List (String × List MidiEvent))
    (h : runMidi bytes ov = some out) :
    runMidiFrom bytes ov nm out = some out := by
  unfold runMidi at h
  unfold runMidiFrom at h ⊢
  cases hh : midiHeader bytes with
  | none => rw [hh] at h; cases h
  | some trip =>
    obtain ⟨pos, nT, dv⟩ := trip
    rw [hh] at h
    dsimp only at h ⊢
    obtain ⟨htempo, hwrites⟩ :=
      parseTracksAux_name_independent bytes nT 0 pos none (some 500000) "" nm
    rw [← htempo, ← hwrites]
    have hout : out =
        annotateDict
          (msPerTickOf ov
            (parseTracksAux bytes ⟨pos, none, some 500000, ""⟩ 0 nT).1.tempo dv)
          (applyWrites (parseTracksAux bytes ⟨pos, none, some 500000, ""⟩ 0 nT).2 []) := by
      injection h with h'
      exact h'.symm
    rw [hout, applyWrites_rerun]

/-- A one-track file whose only event is a trackEnd at tick 1. -/
def c9File : List Nat :=
  [0x4D, 0x54, 0x68, 0x64, 0, 0, 0, 6, 0, 0, 0, 1, 0, 1,
   0x4D, 0x54, 0x72, 0x6B, 0, 0, 0, 4, 0x01, 0xFF, 0x2F, 0x00]

set_option maxRecDepth 100000 in
set_option maxHeartbeats 4000000 in
/-- Witness for C9: rerunning the decoder on `c9File` with a stale
`tempTrackName` and the previous output dictionary still in place yields
the same output. -/
theorem decode_rerun_idempotent_witness :
    runMidi c9File 0 = some [("Track 0", [⟨.trackEnd, 1, some 500⟩])] ∧
    runMidiFrom c9File 0 "stale" [("Track 0", [⟨.trackEnd, 1, some 500⟩])]
      = some [("Track 0", [⟨.trackEnd, 1, some 500⟩])] :=
  ⟨by with_unfolding_all decide,
   decode_rerun_idempotent c9File 0 "stale" _ (by with_unfolding_all decide)⟩

/-- A two-track file in which both tracks carry a 0x03 name meta with the
same one-byte payload `"A"`; the first track holds only a trackEnd, the
second a noteOn followed by a trackEnd. -/
def c10File : List Nat :=
  [0x4D, 0x54, 0x68, 0x64, 0, 0, 0, 6, 0, 0, 0, 2, 0, 1,
   0x4D, 0x54, 0x72, 0x6B, 0, 0, 0, 9,
     0x00, 0xFF, 0x03, 0x01, 0x41, 0x00, 0xFF, 0x2F, 0x00,
   0x4D, 0x54, 0x72, 0x6B, 0, 0, 0, 13,
     0x00, 0xFF, 0x03, 0x01, 0x41, 0x00, 0x90, 0x3C, 0x40, 0x00, 0xFF, 0x2F, 0x00]

set_option maxRecDepth 100000 in
set_option maxHeartbeats 4000000 in
/-- Witness for C10 on `c10File`: both tracks resolve to the name `"A"` and
only the second track's events survive in the output mapping. -/
theorem later_track_wins_witness :
    ([("A", [⟨.trackEnd, 0, none⟩]),
      ("A", [⟨.noteOn (some 0x3C) (some 0x40), 0, none⟩, ⟨.trackEnd, 0, none⟩])]
        : List (String × List MidiEvent))
      = (parseTracksAux c10File ⟨14, none, some 500000, ""⟩ 0 2).2 ∧
    ([("A", [⟨.trackEnd, 0, none⟩]),
      ("A", [⟨.noteOn (some 0x3C) (some 0x40), 0, none⟩, ⟨.trackEnd, 0, none⟩])]
        : List (String × List MidiEvent))
      = [] ++ ("A", [⟨.trackEnd, 0, none⟩]) ::
          [] ++ ("A", [⟨.noteOn (some 0x3C) (some 0x40), 0, none⟩, ⟨.trackEnd, 0, none⟩]) :: [] ∧
    dictGet "A" (annotateDict (some 500)
        (applyWrites [("A", [⟨.trackEnd, 0, none⟩]),
          ("A", [⟨.noteOn (some 0x3C) (some 0x40), 0, none⟩, ⟨.trackEnd, 0, none⟩])] [])) =
      some ([⟨.noteOn (some 0x3C) (some 0x40), 0, none⟩,
             (⟨.trackEnd, 0, none⟩ : MidiEvent)].map (setTimeMS (some 500))) :=
  ⟨by with_unfolding_all decide, by decide,
   later_track_wins c10File ⟨14, none, some 500000, ""⟩ 2 _ [] [] []
     "A" [⟨.trackEnd, 0, none⟩]
     [⟨.noteOn (some 0x3C) (some 0x40), 0, none⟩, ⟨.trackEnd, 0, none⟩]
     (by with_unfolding_all decide) (by decide) (by simp) (some 500) []⟩

/-- **C8 (amended).** A 0x03 (track name) meta event stores its payload as
the track's name only when the payload's big-endian integer value is truthy
(nonzero, non-`NaN`); a non-empty but all-zero payload is ignored.  The
track's name defaults to `"Track " + index` exactly when the loop left the
name empty — i.e. when no 0x03 meta with a truthy payload value stored a
name during the track. -/
theorem trackName_stored_iff_truthy_payload :
    (∀ (bytes : List Nat) (c : PCore) (td : List MidiEvent) (tdt v : Nat),
      bufferToNumber (readBytes bytes c.byteIndex 1).1 = some 0x03 →
      (readVariableLength bytes (c.byteIndex + 1)).1 > 0 →
      bufferToNumber (readBytes bytes (readVariableLength bytes (c.byteIndex + 1)).2.2
          (readVariableLength bytes (c.byteIndex + 1)).1).1 = some v →
      v ≠ 0 →
      (readMetaEvent bytes c td tdt).1.tempTrackName =
        asciiOf (readBytes bytes (readVariableLength bytes (c.byteIndex + 1)).2.2
          (readVariableLength bytes (c.byteIndex + 1)).1).1) ∧
    (∀ (bytes : List Nat) (c : PCore) (td : List MidiEvent) (tdt : Nat),
      bufferToNumber (readBytes bytes c.byteIndex 1).1 = some 0x03 →
      (readVariableLength bytes (c.byteIndex + 1)).1 > 0 →
      jtruthy (bufferToNumber (readBytes bytes (readVariableLength bytes (c.byteIndex + 1)).2.2
          (readVariableLength bytes (c.byteIndex + 1)).1).1) = false →
      (readMetaEvent bytes c td tdt).1.tempTrackName = c.tempTrackName) ∧
    (∀ (bytes : List Nat) (iTrack : Nat) (c : PCore),
      (readBytes bytes c.byteIndex 4).1 = trackChunkBytes →
      (readTrack bytes iTrack c).2 = some
        (let L := runTrackLoop bytes
          ⟨{ c with byteIndex := c.byteIndex + 4 + 4, tempTrackName := "" },
            (((bufferToNumber (readBytes bytes (c.byteIndex + 4) 4).1).getD 0 : Nat) : Int),
            0, []⟩
         (if L.core.tempTrackName = "" then "Track " ++ toString iTrack
          else L.core.tempTrackName, L.trackData))) := by
  refine ⟨?_, ?_, ?_⟩
  · intro bytes c td tdt v h1 h2 h3 hv
    unfold readMetaEvent
    dsimp only
    rcases hrv : readVariableLength bytes (c.byteIndex + 1) with ⟨ml, mlc, pos₂⟩
    rw [hrv] at h2 h3
    dsimp only at h2 h3 ⊢
    rw [if_pos h2, if_pos h1, h3, if_pos (by simp [jtruthy, hv])]
  · intro bytes c td tdt h1 h2 h3
    unfold readMetaEvent
    dsimp only
    rcases hrv : readVariableLength bytes (c.byteIndex + 1) with ⟨ml, mlc, pos₂⟩
    rw [hrv] at h2 h3
    dsimp only at h2 h3 ⊢
    rw [if_pos h2, if_pos h1, if_neg (by simp [h3])]
  · intro bytes iTrack c hmagic
    unfold readTrack
    simp only [readBytes] at hmagic ⊢
    rw [if_neg (by simp [hmagic])]

/-- A one-track file whose track carries a 0x03 name meta with the
non-empty payload `[0x00]`, followed by a trackEnd. -/
def c8File : List Nat :=
  [0x4D, 0x54, 0x68, 0x64, 0, 0, 0, 6, 0, 0, 0, 1, 0, 1,
   0x4D, 0x54, 0x72, 0x6B, 0, 0, 0, 9,
     0x00, 0xFF, 0x03, 0x01, 0x00, 0x00, 0xFF, 0x2F, 0x00]

set_option maxRecDepth 100000 in
set_option maxHeartbeats 4000000 in
/-- **C8 counterexample.** The claim says a 0x03 meta with a non-empty
payload stores that payload as the track's name, and that the default name
is used exactly when no name meta was seen.  On `c8File` the track carries
a 0x03 meta with the non-empty payload `[0x00]`, yet — because the code
tests the truthiness of the payload's integer value, which is 0 — the
output is keyed by the default name `"Track 0"` and no entry exists under
the payload string. -/
theorem trackName_zero_payload_counterexample :
    runMidi c8File 0 = some [("Track 0", [⟨.trackEnd, 0, some 0⟩])] ∧
    dictGet (asciiOf [0x00])
      [("Track 0", [(⟨.trackEnd, 0, some 0⟩ : MidiEvent)])] = none := by
  with_unfolding_all decide

/-- Witness for the amended C8 theorem: a truthy payload `[0x41]` is stored
as the name `"A"`; the zero payload `[0x00]` leaves the name untouched; a
zero-length track gets the default name. -/
theorem trackName_stored_iff_truthy_payload_witness :
    (bufferToNumber (readBytes [0x03, 0x01, 0x41]
        (PCore.mk 0 none (some 500000) "X").byteIndex 1).1 = some 0x03 ∧
      (readVariableLength [0x03, 0x01, 0x41]
        ((PCore.mk 0 none (some 500000) "X").byteIndex + 1)).1 > 0 ∧
      (readMetaEvent [0x03, 0x01, 0x41] ⟨0, none, some 500000, "X"⟩ [] 0).1.tempTrackName
        = asciiOf (readBytes [0x03, 0x01, 0x41]
            (readVariableLength [0x03, 0x01, 0x41]
              ((PCore.mk 0 none (some 500000) "X").byteIndex + 1)).2.2
            (readVariableLength [0x03, 0x01, 0x41]
              ((PCore.mk 0 none (some 500000) "X").byteIndex + 1)).1).1 ∧
      asciiOf [0x41] = "A") ∧
    ((readMetaEvent [0x03, 0x01, 0x00] ⟨0, none, some 500000, "X"⟩ [] 0).1.tempTrackName
      = (PCore.mk 0 none (some 500000) "X").tempTrackName) ∧
    ((readTrack [0x4D, 0x54, 0x72, 0x6B, 0, 0, 0, 0] 7
        ⟨0, none, some 500000, "old"⟩).2 = some ("Track 7", [])) :=
  ⟨⟨by decide, by decide,
    trackName_stored_iff_truthy_payload.1 [0x03, 0x01, 0x41]
      ⟨0, none, some 500000, "X"⟩ [] 0 0x41 (by decide) (by decide) (by decide)
      (by decide),
    by decide⟩,
   trackName_stored_iff_truthy_payload.2.1 [0x03, 0x01, 0x00]
     ⟨0, none, some 500000, "X"⟩ [] 0 (by decide) (by decide) (by decide),
   by
     rw [trackName_stored_iff_truthy_payload.2.2 [0x4D, 0x54, 0x72, 0x6B, 0, 0, 0, 0] 7
       ⟨0, none, some 500000, "old"⟩ (by decide)]
     decide⟩

theorem timeMS_of_mem_annotated (m : Option ℚ) (d : List (String × List MidiEvent))
    (nm : String) (evs : List MidiEvent)
    (h : dictGet nm (annotateDict m d) = some evs) :
    ∀ ev ∈ evs, ev.timeMS = m.map (fun q => (ev.time : ℚ) * q) := by
  rw [dictGet_annotateDict] at h
  obtain ⟨evs₀, hx, hmap⟩ := Option.map_eq_some'.mp h
  subst hmap
  intro ev hev
  obtain ⟨ev₀, hev₀, rfl⟩ := List.mem_map.mp hev
  cases m <;> simp [setTimeMS]

theorem msPerTickOf_override (ov : ℚ) (t : Option ℚ) (dv : Option Nat)
    (hov : 0 < ov) :
    msPerTickOf ov t dv =
      match dv with
      | some d => some (ov / (d : ℚ) / 1000)
      | none => none := by
  unfold msPerTickOf
  rw [if_pos hov]
  cases dv <;> rfl

set_option maxHeartbeats 3200000 in
/-- **C5.** The effective tempo and time annotation: (1) when an override
BPM > 0  was supplied (`overrideTempo = 60000000 / BPM > 0`), every emitted
event's millisecond timestamp is its tick time times
`((60000000 / BPM) / division) / 1000`, independently of every embedded
tempo meta event (override precedence); (2) with no override
(`overrideTempo = 0`), every timestamp is tick time times
`(tempoFinal / division) / 1000`, where `tempoFinal` is the tempo state
threaded through all tracks in parse order, seeded with the default 500000
in `runMidiFrom`; (3) that tempo state is preserved by `readEvent` and
`readSysex` and overwritten only by a 0x51 tempo meta event with a positive
length, whose big-endian payload value it becomes — so the final state is
the last tempo meta seen across all tracks, or 500000 if none appeared. -/
theorem effectiveTempo_and_timeMS :
    (∀ (bytes : List Nat) (bpm : ℚ) (pos nT : Nat) (dv : Option Nat)
        (out : List (String × List MidiEvent)),
      0 < bpm →
      midiHeader bytes = some (pos, nT, dv) →
      runMidi bytes (60000000 / bpm) = some out →
      ∀ nm evs, dictGet nm out = some evs → ∀ ev ∈ evs,
        ev.timeMS =
          match dv with
          | some d => some ((ev.time : ℚ) * (60000000 / bpm / (d : ℚ) / 1000))
          | none => none) ∧
    (∀ (bytes : List Nat) (pos nT : Nat) (dv : Option Nat)
        (out : List (String × List MidiEvent)),
      midiHeader bytes = some (pos, nT, dv) →
      runMidi bytes 0 = some out →
      ∀ nm evs, dictGet nm out = some evs → ∀ ev ∈ evs,
        ev.timeMS =
          (msPerTickOf 0
            (parseTracksAux bytes ⟨pos, none, some 500000, ""⟩ 0 nT).1.tempo
            dv).map (fun q => (ev.time : ℚ) * q)) ∧
    (∀ (bytes : List Nat) (c : PCore) (td : List MidiEvent) (tdt : Nat)
        (hb : Option Nat), (readEvent bytes c td tdt hb).1.tempo = c.tempo) ∧
    (∀ (bytes : List Nat) (c : PCore) (td : List MidiEvent) (hb : Option Nat),
      (readSysex bytes c td hb).1.tempo = c.tempo) ∧
    (∀ (bytes : List Nat) (c : PCore) (td : List MidiEvent) (tdt : Nat),
      (readMetaEvent bytes c td tdt).1.tempo =
        if bufferToNumber (readBytes bytes c.byteIndex 1).1 = some 0x51 ∧
            (readVariableLength bytes (c.byteIndex + 1)).1 > 0 then
          (bufferToNumber (readBytes bytes
              (readVariableLength bytes (c.byteIndex + 1)).2.2
              (readVariableLength bytes (c.byteIndex + 1)).1).1).map (Nat.cast)
        else c.tempo) := by
  refine ⟨?_, ?_, ?_, ?_, ?_⟩
  · intro bytes bpm pos nT dv out hbpm hh hr nm evs hget ev hev
    have hov : 0 < (60000000 : ℚ) / bpm := by positivity
    unfold runMidi runMidiFrom at hr
    rw [hh] at hr
    dsimp only at hr
    injection hr with hr'
    rw [← hr'] at hget
    have hx := timeMS_of_mem_annotated _ _ nm evs hget ev hev
    rw [msPerTickOf_override _ _ _ hov] at hx
    cases dv <;> simpa using hx
  · intro bytes pos nT dv out hh hr nm evs hget ev hev
    unfold runMidi runMidiFrom at hr
    rw [hh] at hr
    dsimp only at hr
    injection hr with hr'
    rw [← hr'] at hget
    exact timeMS_of_mem_annotated _ _ nm evs hget ev hev
  · intro bytes c td tdt hb
    unfold readEvent
    dsimp only
    split_ifs <;> rfl
  · intro bytes c td hb
    unfold readSysex
    dsimp only
    split_ifs <;> rfl
  · intro bytes c td tdt
    unfold readMetaEvent
    dsimp only
    rcases hrv : readVariableLength bytes (c.byteIndex + 1) with ⟨ml, mlc, pos₂⟩
    dsimp only
    split_ifs <;> simp_all

/-- A one-track file with an embedded tempo meta of 1000000 µs/beat
(`0x0F4240`) and a trackEnd at tick 1, with division 1. -/
def c5File : List Nat :=
  [0x4D, 0x54, 0x68, 0x64, 0, 0, 0, 6, 0, 0, 0, 1, 0, 1,
   0x4D, 0x54, 0x72, 0x6B, 0, 0, 0, 11,
     0x00, 0xFF, 0x51, 0x03, 0x0F, 0x42, 0x40, 0x01, 0xFF, 0x2F, 0x00]

set_option maxRecDepth 100000 in
set_option maxHeartbeats 4000000 in
/-- Witness for C5: a 120 BPM override (`60000000 / 120 = 500000`) takes
precedence over the embedded 1000000 µs/beat tempo event of `c5File`: the
trackEnd at tick 1 is stamped `1 * ((60000000 / 120) / 1 / 1000) = 500` ms
(with the embedded tempo it would have been 1000). -/
theorem effectiveTempo_and_timeMS_witness :
    (0 : ℚ) < 120 ∧
    midiHeader c5File = some (14, 1, some 1) ∧
    runMidi c5File (60000000 / 120) = some [("Track 0", [⟨.trackEnd, 1, some 500⟩])] ∧
    dictGet "Track 0" [("Track 0", [(⟨.trackEnd, 1, some 500⟩ : MidiEvent)])]
      = some [⟨.trackEnd, 1, some 500⟩] ∧
    (⟨.trackEnd, 1, some 500⟩ : MidiEvent) ∈
      [(⟨.trackEnd, 1, some 500⟩ : MidiEvent)] ∧
    (⟨.trackEnd, 1, some 500⟩ : MidiEvent).timeMS =
      some (((⟨.trackEnd, 1, some 500⟩ : MidiEvent).time : ℚ)
        * (60000000 / 120 / ((1 : Nat) : ℚ) / 1000)) :=
  ⟨by norm_num, by decide, by with_unfolding_all decide,
   by with_unfolding_all decide, by simp,
   effectiveTempo_and_timeMS.1 c5File 120 14 1 (some 1)
     [("Track 0", [⟨.trackEnd, 1, some 500⟩])] (by norm_num)
     (by decide) (by with_unfolding_all decide) "Track 0"
     [⟨.trackEnd, 1, some 500⟩] (by with_unfolding_all decide)
     ⟨.trackEnd, 1, some 500⟩ (by simp)⟩
